import Mathlib

/-!
Verification development for the onlyfunding-sdk Python client
(src/python/fundity_sdk.py).

Embedding conventions:
* Python `dict` values are modelled as ordered association lists
  `List (String × _)`; Python dicts preserve insertion order, and lookup by
  key is `dictLookup` (first matching key).  An association list built from a
  real Python dict always has pairwise-distinct keys, which appears as a
  `Nodup` hypothesis where a theorem needs it.
* Python numbers: raw funding rates are `int`, modelled as `ℤ`; the values
  `rate / 10000.0`, spreads and `min_spread` are Python floats, modelled as
  exact rationals `ℚ`.
* `list.sort(key=..., reverse=True)` is a stable descending sort; it is
  modelled by `List.insertionSort spreadGE`, which places each element before
  the first already-sorted element of smaller-or-equal spread, hence is the
  (unique) stable descending sort by spread.
-/

namespace OnlyFunding

/-- Lookup in an association list modelling a Python dict: the value at the
first matching key (`d[k]` after the membership test `k in d`). -/
def dictLookup {α : Type} : List (String × α) → String → Option α
  | [], _ => none
  | (k, v) :: rest, key => if k = key then some v else dictLookup rest key

/-- The `FundingRatesData` dataclass of fundity_sdk.py.  The `exchanges`
field is `Dict[str, Any]` in Python; its values are opaque to all client
logic, so they are modelled as strings. -/
structure FundingRatesData where
  symbols : List String
  exchanges : List (String × String)
  funding_rates : List (String × List (String × Int))
  oi_rankings : List (String × String)
  default_oi_rank : String
  timestamp : String
deriving DecidableEq

/-- `onlyfundingClient.get_rate` (fundity_sdk.py lines 88-107), applied to the
snapshot the internal `get_funding_rates()` call returned: two nested key
membership tests, then `rate / 10000.0`; `None` when either key is absent. -/
def get_rate (data : FundingRatesData) (exchange symbol : String) : Option ℚ :=
  match dictLookup data.funding_rates exchange with
  | none => none
  | some tbl =>
    match dictLookup tbl symbol with
    | none => none
    | some rate => some ((rate : ℚ) / 10000)

/-- The `rates` dict built by the first loop of `find_arbitrage_opportunities`
(lines 127-130): every exchange whose table contains `symbol`, with its raw
rate, in snapshot iteration order. -/
def collectRates : List (String × List (String × Int)) → String → List (String × Int)
  | [], _ => []
  | (exchange, tbl) :: rest, symbol =>
    match dictLookup tbl symbol with
    | some r => (exchange, r) :: collectRates rest symbol
    | none => collectRates rest symbol

/-- The pairs `(exchanges[i], exchanges[j])` with `i < j`, in the order the
nested loops of lines 136-137 visit them. -/
def pairsFrom {α : Type} : List α → List (α × α)
  | [] => []
  | x :: xs => xs.map (fun y => (x, y)) ++ pairsFrom xs

/-- `spread = abs(rate1 - rate2) / 10000.0` (line 140) for a pair of
`(exchange, raw rate)` entries. -/
def spreadOf (p : (String × Int) × (String × Int)) : ℚ :=
  ((|p.1.2 - p.2.2| : ℤ) : ℚ) / 10000

/-- One opportunity dict as appended on lines 143-153. -/
structure Opportunity where
  symbol : String
  exchange1 : String
  rate1 : ℚ
  exchange2 : String
  rate2 : ℚ
  spread : ℚ
  long_exchange : String
  short_exchange : String
deriving DecidableEq

/-- The opportunity dict built on lines 144-153 for the pair `p`. -/
def mkOpportunity (symbol : String) (p : (String × Int) × (String × Int)) :
    Opportunity where
  symbol := symbol
  exchange1 := p.1.1
  rate1 := (p.1.2 : ℚ) / 10000
  exchange2 := p.2.1
  rate2 := (p.2.2 : ℚ) / 10000
  spread := spreadOf p
  long_exchange := if p.1.2 < p.2.2 then p.1.1 else p.2.1
  short_exchange := if p.1.2 < p.2.2 then p.2.1 else p.1.1

/-- The sort key order of line 156: `a` may come before `b` when the spread of
`a` is at least the spread of `b` (descending). -/
def spreadGE (a b : Opportunity) : Prop := b.spread ≤ a.spread

instance : DecidableRel spreadGE :=
  fun a b => inferInstanceAs (Decidable (b.spread ≤ a.spread))

instance : IsTotal Opportunity spreadGE :=
  ⟨fun a b => le_total b.spread a.spread⟩

instance : IsTrans Opportunity spreadGE :=
  ⟨fun _ _ _ hab hbc => le_trans hbc hab⟩

/-- The `opportunities` list in enumeration order, before the final sort:
the pairs of lines 136-137 that pass the `spread >= min_spread` test of
line 142, each turned into its dict. -/
def preSortOpportunities (data : FundingRatesData) (symbol : String)
    (min_spread : ℚ) : List Opportunity :=
  ((pairsFrom (collectRates data.funding_rates symbol)).filter
      (fun p => decide (min_spread ≤ spreadOf p))).map (mkOpportunity symbol)

/-- `onlyfundingClient.find_arbitrage_opportunities` (lines 109-158), applied
to the snapshot the internal `get_funding_rates()` call returned: collect the
rates, return `[]` when fewer than two exchanges qualify, otherwise build the
opportunity list and stably sort it by spread descending. -/
def find_arbitrage_opportunities (data : FundingRatesData) (symbol : String)
    (min_spread : ℚ) : List Opportunity :=
  let rates := collectRates data.funding_rates symbol
  if rates.length < 2 then []
  else List.insertionSort spreadGE (preSortOpportunities data symbol min_spread)

/-- A successfully parsed JSON body, as consumed on lines 75-82: each
top-level field independently present or absent. -/
structure JsonBody where
  symbolsOpt : Option (List String)
  exchangesOpt : Option (List (String × String))
  fundingRatesOpt : Option (List (String × List (String × Int)))
  oiRankingsOpt : Option (List (String × String))
  defaultOiRankOpt : Option String
  timestampOpt : Option String
deriving DecidableEq

/-- The `FundingRatesData(...)` construction of lines 75-82: each field is
`data.get(key, default)`. -/
def buildSnapshot (j : JsonBody) : FundingRatesData where
  symbols := j.symbolsOpt.getD []
  exchanges := j.exchangesOpt.getD []
  funding_rates := j.fundingRatesOpt.getD []
  oi_rankings := j.oiRankingsOpt.getD []
  default_oi_rank := j.defaultOiRankOpt.getD "500+"
  timestamp := j.timestampOpt.getD ""

/-- The single domain error type `onlyfundingError`: one exception class whose
message distinguishes the two failure kinds. -/
structure onlyfundingError where
  message : String
deriving DecidableEq

/-- The error raised by the `requests.exceptions.RequestException` branch
(line 84): `Failed to fetch funding rates: {cause}`. -/
def transportFailure (cause : String) : onlyfundingError :=
  ⟨"Failed to fetch funding rates: " ++ cause⟩

/-- The error raised by the `(KeyError, ValueError)` branch (line 86):
`Invalid API response: {cause}`. -/
def invalidResponse (cause : String) : onlyfundingError :=
  ⟨"Invalid API response: " ++ cause⟩

/-- The body of an HTTP response as the code of lines 72-82 distinguishes it:
`response.json()` fails to parse (it raises
`requests.exceptions.JSONDecodeError`, which under the pinned
`requests>=2.28.0` of setup.py subclasses `RequestException` as well as
`ValueError`); or the body is valid JSON but not an object (a list, null,
string or number: `pyType` records the Python type name), so that
`data.get(...)` raises an `AttributeError`; or the body is a JSON object. -/
inductive HttpBody where
  | parseFailure (cause : String)
  | nonObject (pyType : String)
  | object (j : JsonBody)

/-- Outcome of the HTTP GET of lines 67-70, as seen by the client code: either
the transport raised a `RequestException` (network error, timeout, redirect
loop, ...), or a response arrived with a status code, a reason phrase and a
body. -/
inductive HttpResult where
  | netError (cause : String)
  | response (status : Nat) (reason : String) (body : HttpBody)

/-- The message of the `HTTPError` that `response.raise_for_status()` raises;
the requests library raises exactly for status codes 400-599, with a message
naming the status code and reason. -/
def raiseForStatusMsg (status : Nat) (reason : String) : String :=
  if status < 500 then toString status ++ " Client Error: " ++ reason
  else toString status ++ " Server Error: " ++ reason

/-- What a call to `get_funding_rates` produces, as observed by the caller:
the snapshot, a raised `onlyfundingError`, or an exception that both except
clauses of lines 83-86 fail to catch and that escapes the method as-is. -/
inductive FetchResult where
  | success (d : FundingRatesData)
  | failure (e : onlyfundingError)
  | uncaughtError (msg : String)

/-- `onlyfundingClient.get_funding_rates` (lines 54-86) as a function of the
HTTP outcome. A `RequestException` from the GET, from
`response.raise_for_status()` (raised exactly when `400 <= status < 600`),
or from `response.json()` (whose `JSONDecodeError` subclasses
`RequestException` under the pinned `requests>=2.28.0`) is caught by the
first except clause and wrapped as the transport kind. The second clause,
`except (KeyError, ValueError)`, wraps nothing in practice: no statement of
the try block raises a `KeyError` or a plain `ValueError`, so
`invalidResponse` is never produced. The `AttributeError` that `data.get`
raises on a non-object body matches neither clause and escapes uncaught.
Otherwise the snapshot is built with lenient defaults. -/
def get_funding_rates (h : HttpResult) : FetchResult :=
  match h with
  | .netError cause => .failure (transportFailure cause)
  | .response status reason body =>
    if 400 ≤ status ∧ status < 600 then
      .failure (transportFailure (raiseForStatusMsg status reason))
    else
      match body with
      | .parseFailure cause => .failure (transportFailure cause)
      | .nonObject pyType =>
        .uncaughtError ("AttributeError: " ++ pyType ++ " object has no attribute get")
      | .object j => .success (buildSnapshot j)

/-- The worked example of the specification, section 8. -/
def exFR : List (String × List (String × Int)) :=
  [("ex_a", [("BTC", 100)]), ("ex_b", [("BTC", 300)]), ("ex_c", [("BTC", 50)])]

/-- A snapshot carrying `exFR`. -/
def exData : FundingRatesData :=
  { symbols := ["BTC"], exchanges := [], funding_rates := exFR,
    oi_rankings := [], default_oi_rank := "500+", timestamp := "" }

/-- The all-absent JSON body. -/
def emptyBody : JsonBody :=
  { symbolsOpt := none, exchangesOpt := none, fundingRatesOpt := none,
    oiRankingsOpt := none, defaultOiRankOpt := none, timestampOpt := none }

/-- Keys of the collected rates list form a sublist of the snapshot keys. -/
theorem collectRates_keys_sublist (fr : List (String × List (String × Int)))
    (symbol : String) :
    List.Sublist ((collectRates fr symbol).map Prod.fst) (fr.map Prod.fst) := by
  induction fr with
  | nil => simp [collectRates]
  | cons e rest ih =>
    obtain ⟨exchange, tbl⟩ := e
    simp only [collectRates]
    cases dictLookup tbl symbol with
    | none => exact ih.cons _
    | some r => exact ih.cons₂ _

/-- With distinct snapshot keys, an entry of the collected rates list comes
from the two dictionary lookups. -/
theorem mem_collectRates {fr : List (String × List (String × Int))}
    {symbol exchange : String} {r : ℤ}
    (hnd : (fr.map Prod.fst).Nodup)
    (hm : (exchange, r) ∈ collectRates fr symbol) :
    ∃ tbl, dictLookup fr exchange = some tbl ∧ dictLookup tbl symbol = some r := by
  induction fr with
  | nil => cases hm
  | cons e rest ih =>
    obtain ⟨ex0, tbl0⟩ := e
    simp only [List.map_cons, List.nodup_cons] at hnd
    simp only [collectRates] at hm
    have hrest : (exchange, r) ∈ collectRates rest symbol →
        ∃ tbl, dictLookup ((ex0, tbl0) :: rest) exchange = some tbl ∧
          dictLookup tbl symbol = some r := by
      intro hm2
      obtain ⟨tbl, hl, hs⟩ := ih hnd.2 hm2
      have hex : exchange ∈ rest.map Prod.fst :=
        (collectRates_keys_sublist rest symbol).subset
          (List.mem_map_of_mem Prod.fst hm2)
      have hne : ex0 ≠ exchange := fun h => hnd.1 (h ▸ hex)
      exact ⟨tbl, by simp [dictLookup, hne, hl], hs⟩
    cases h0 : dictLookup tbl0 symbol with
    | none =>
      rw [h0] at hm
      exact hrest hm
    | some r0 =>
      rw [h0] at hm
      rcases List.mem_cons.mp hm with heq | hm2
      · obtain ⟨h1, h2⟩ := Prod.mk.injEq .. ▸ heq
        subst h1; subst h2
        exact ⟨tbl0, by simp [dictLookup], h0⟩
      · exact hrest hm2

/-- The number of collected rates is the number of snapshot entries whose
table contains the symbol. -/
theorem length_collectRates (fr : List (String × List (String × Int)))
    (symbol : String) :
    (collectRates fr symbol).length =
      fr.countP (fun e => (dictLookup e.2 symbol).isSome) := by
  induction fr with
  | nil => rfl
  | cons e rest ih =>
    obtain ⟨ex0, tbl0⟩ := e
    simp only [collectRates, List.countP_cons]
    cases h0 : dictLookup tbl0 symbol <;> simp [h0, ih]

/-- Both components of an enumerated pair are elements of the list. -/
theorem mem_pairsFrom {α : Type} {l : List α} {p : α × α} (h : p ∈ pairsFrom l) :
    p.1 ∈ l ∧ p.2 ∈ l := by
  induction l with
  | nil => cases h
  | cons x xs ih =>
    simp only [pairsFrom, List.mem_append, List.mem_map] at h
    rcases h with ⟨y, hy, rfl⟩ | h
    · exact ⟨List.mem_cons_self x xs, List.mem_cons_of_mem x hy⟩
    · exact ⟨List.mem_cons_of_mem x (ih h).1, List.mem_cons_of_mem x (ih h).2⟩

/-- Two distinct elements of the list are enumerated as a pair in one of the
two orders. -/
theorem pairsFrom_total {α : Type} {l : List α} {x y : α}
    (hx : x ∈ l) (hy : y ∈ l) (hne : x ≠ y) :
    (x, y) ∈ pairsFrom l ∨ (y, x) ∈ pairsFrom l := by
  induction l with
  | nil => cases hx
  | cons z zs ih =>
    rcases List.mem_cons.mp hx with rfl | hx2
    · have hy2 : y ∈ zs := by
        rcases List.mem_cons.mp hy with rfl | h
        · exact absurd rfl hne
        · exact h
      left
      simp only [pairsFrom, List.mem_append, List.mem_map]
      exact Or.inl ⟨y, hy2, rfl⟩
    · rcases List.mem_cons.mp hy with rfl | hy2
      · right
        simp only [pairsFrom, List.mem_append, List.mem_map]
        exact Or.inl ⟨x, hx2, rfl⟩
      · rcases ih hx2 hy2 with h | h
        · left
          simp only [pairsFrom, List.mem_append]
          exact Or.inr h
        · right
          simp only [pairsFrom, List.mem_append]
          exact Or.inr h

/-- With distinct keys, no enumerated pair has equal keys. -/
theorem pairsFrom_fst_ne {l : List (String × Int)}
    (hnd : (l.map Prod.fst).Nodup) :
    ∀ p ∈ pairsFrom l, p.1.1 ≠ p.2.1 := by
  induction l with
  | nil => intro p hp; cases hp
  | cons x xs ih =>
    simp only [List.map_cons, List.nodup_cons] at hnd
    intro p hp
    simp only [pairsFrom, List.mem_append, List.mem_map] at hp
    rcases hp with ⟨y, hy, rfl⟩ | hp
    · exact fun h => hnd.1 (h ▸ List.mem_map_of_mem Prod.fst hy)
    · exact ih hnd.2 p hp

/-- With distinct keys, the enumerated pairs are pairwise distinct as
unordered pairs of keys. -/
theorem pairwise_pairsFrom {l : List (String × Int)}
    (hnd : (l.map Prod.fst).Nodup) :
    List.Pairwise
      (fun p q : (String × Int) × (String × Int) =>
        ¬((q.1.1 = p.1.1 ∧ q.2.1 = p.2.1) ∨ (q.1.1 = p.2.1 ∧ q.2.1 = p.1.1)))
      (pairsFrom l) := by
  induction l with
  | nil => exact .nil
  | cons x xs ih =>
    simp only [List.map_cons, List.nodup_cons] at hnd
    simp only [pairsFrom]
    apply List.pairwise_append.mpr
    refine ⟨?_, ih hnd.2, ?_⟩
    · rw [List.pairwise_map]
      have hxs : List.Pairwise (fun a b : String × Int => a.1 ≠ b.1) xs :=
        List.pairwise_map.mp hnd.2
      refine hxs.imp_of_mem ?_
      intro a b ha _ hab hcon
      rcases hcon with ⟨_, h2⟩ | ⟨h1, _⟩
      · exact hab h2.symm
      · exact hnd.1 (h1 ▸ List.mem_map_of_mem Prod.fst ha)
    · intro p hp q hq
      obtain ⟨y, _, rfl⟩ := List.mem_map.mp hp
      have hq1 : q.1 ∈ xs := (mem_pairsFrom hq).1
      have hq2 : q.2 ∈ xs := (mem_pairsFrom hq).2
      intro hcon
      rcases hcon with ⟨h1, _⟩ | ⟨_, h2⟩
      · exact hnd.1 (h1 ▸ List.mem_map_of_mem Prod.fst hq1)
      · exact hnd.1 (h2 ▸ List.mem_map_of_mem Prod.fst hq2)

/-- In a list with distinct keys, a key determines its value. -/
theorem nodupKeys_mem_eq {α : Type} {l : List (String × α)} {k : String}
    {v v' : α} (hnd : (l.map Prod.fst).Nodup)
    (h1 : (k, v) ∈ l) (h2 : (k, v') ∈ l) : v = v' := by
  induction l with
  | nil => cases h1
  | cons x xs ih =>
    simp only [List.map_cons, List.nodup_cons] at hnd
    rcases List.mem_cons.mp h1 with he1 | ht1
    · rcases List.mem_cons.mp h2 with he2 | ht2
      · rw [← he1] at he2
        exact (Prod.mk.injEq .. ▸ he2).2.symm
      · exfalso
        apply hnd.1
        have : k ∈ xs.map Prod.fst := List.mem_map_of_mem Prod.fst ht2
        rw [← he1]
        exact this
    · rcases List.mem_cons.mp h2 with he2 | ht2
      · exfalso
        apply hnd.1
        have : k ∈ xs.map Prod.fst := List.mem_map_of_mem Prod.fst ht1
        rw [← he2]
        exact this
      · exact ih hnd.2 ht1 ht2

/-- A list containing two distinct elements has length at least two. -/
theorem two_le_length_of_mem {α : Type} {l : List α} {x y : α}
    (hx : x ∈ l) (hy : y ∈ l) (hne : x ≠ y) : 2 ≤ l.length := by
  cases l with
  | nil => cases hx
  | cons a t =>
    cases t with
    | nil =>
      have hxa := List.mem_singleton.mp hx
      have hya := List.mem_singleton.mp hy
      exact absurd (hxa.trans hya.symm) hne
    | cons b t' => simp only [List.length_cons]; omega

/-- A list of fewer than two elements has no pairs. -/
theorem pairsFrom_eq_nil {α : Type} {l : List α} (h : l.length < 2) :
    pairsFrom l = [] := by
  match l with
  | [] => rfl
  | [x] => rfl
  | x :: y :: t => simp only [List.length_cons] at h; omega

/-- `find_arbitrage_opportunities` always equals the stable sort of the
enumeration-order opportunity list: when fewer than two exchanges qualify
both sides are empty. -/
theorem find_eq_insertionSort (data : FundingRatesData) (symbol : String)
    (min_spread : ℚ) :
    find_arbitrage_opportunities data symbol min_spread =
      List.insertionSort spreadGE (preSortOpportunities data symbol min_spread) := by
  by_cases h : (collectRates data.funding_rates symbol).length < 2
  · have hp : preSortOpportunities data symbol min_spread = [] := by
      unfold preSortOpportunities
      rw [pairsFrom_eq_nil h]
      rfl
    simp [find_arbitrage_opportunities, h, hp]
  · simp [find_arbitrage_opportunities, h]

/-- Membership inversion: an opportunity is returned exactly when it is built
from an enumerated pair passing the spread test. -/
theorem mem_find_iff {data : FundingRatesData} {symbol : String}
    {min_spread : ℚ} {opp : Opportunity} :
    opp ∈ find_arbitrage_opportunities data symbol min_spread ↔
      ∃ p ∈ pairsFrom (collectRates data.funding_rates symbol),
        min_spread ≤ spreadOf p ∧ opp = mkOpportunity symbol p := by
  rw [find_eq_insertionSort, List.mem_insertionSort]
  unfold preSortOpportunities
  simp only [List.mem_map, List.mem_filter, decide_eq_true_eq]
  constructor
  · rintro ⟨p, ⟨hp, hs⟩, rfl⟩
    exact ⟨p, hp, hs, rfl⟩
  · rintro ⟨p, hp, hs, rfl⟩
    exact ⟨p, ⟨hp, hs⟩, rfl⟩

/-- Inserting into a list touches no other equal-spread class: every element
it passes over has strictly larger spread. -/
theorem filter_spread_orderedInsert (s : ℚ) (a : Opportunity)
    (l : List Opportunity) :
    (List.orderedInsert spreadGE a l).filter (fun o => decide (o.spread = s)) =
      if a.spread = s then
        a :: l.filter (fun o => decide (o.spread = s))
      else l.filter (fun o => decide (o.spread = s)) := by
  induction l with
  | nil =>
    simp only [List.orderedInsert, List.filter]
    by_cases h : a.spread = s <;> simp [h]
  | cons b t ih =>
    by_cases hab : spreadGE a b
    · rw [List.orderedInsert, if_pos hab, List.filter_cons]
      by_cases h : a.spread = s <;> simp [h]
    · rw [List.orderedInsert, if_neg hab, List.filter_cons, ih, List.filter_cons]
      have hlt : a.spread < b.spread := lt_of_not_le hab
      by_cases h : a.spread = s
      · have hb : ¬b.spread = s := by
          rw [← h]
          exact ne_of_gt hlt
        simp [h, hb]
      · by_cases hb : b.spread = s <;> simp [h, hb]

/-- The stable sort does not reorder opportunities of equal spread: filtering
any equal-spread class commutes with sorting. -/
theorem filter_spread_insertionSort (s : ℚ) (l : List Opportunity) :
    (List.insertionSort spreadGE l).filter (fun o => decide (o.spread = s)) =
      l.filter (fun o => decide (o.spread = s)) := by
  induction l with
  | nil => rfl
  | cons a t ih =>
    rw [List.insertionSort, filter_spread_orderedInsert, List.filter_cons, ih]
    by_cases h : a.spread = s <;> simp [h]

example : get_rate exData "ex_a" "BTC" = some (1 / 100) := by
  norm_num [get_rate, exData, exFR, dictLookup]
example : get_rate exData "ex_a" "ETH" = none := by decide
example : (find_arbitrage_opportunities exData "BTC" (1 / 100)).map
    (fun o => (o.exchange1, o.exchange2, o.spread, o.long_exchange, o.short_exchange)) =
    [("ex_b", "ex_c", 1 / 40, "ex_c", "ex_b"), ("ex_a", "ex_b", 1 / 50, "ex_a", "ex_b")] := by
  norm_num [find_arbitrage_opportunities, preSortOpportunities, collectRates, dictLookup,
    pairsFrom, mkOpportunity, spreadOf, List.insertionSort, List.orderedInsert, spreadGE]

/-- The opportunity built for the pair of exchanges `ex_a`, `ex_b` of the
worked example. -/
def oppAB : Opportunity := mkOpportunity "BTC" (("ex_a", 100), ("ex_b", 300))

/-- The opportunity built for the pair of exchanges `ex_b`, `ex_c` of the
worked example. -/
def oppBC : Opportunity := mkOpportunity "BTC" (("ex_b", 300), ("ex_c", 50))

/-- The worked example of specification section 8, evaluated: the `ex_a`,
`ex_c` pair is filtered out and the result is sorted by spread descending. -/
theorem find_exData_eq :
    find_arbitrage_opportunities exData "BTC" (1 / 100) = [oppBC, oppAB] := by
  norm_num [find_arbitrage_opportunities, preSortOpportunities, collectRates, dictLookup,
    pairsFrom, mkOpportunity, spreadOf, List.insertionSort, List.orderedInsert, spreadGE,
    oppAB, oppBC, exData, exFR]

/-- C1: for every raw integer rate stored in the snapshot funding_rates
table, the normalized percentage returned by get_rate, and the rate1 and
rate2 fields of every returned arbitrage opportunity, equal exactly the raw
rate divided by 10000. -/
theorem C1_rate_normalization (data : FundingRatesData) (symbol : String)
    (min_spread : ℚ) (hnd : (data.funding_rates.map Prod.fst).Nodup) :
    (∀ exchange tbl r, dictLookup data.funding_rates exchange = some tbl →
        dictLookup tbl symbol = some r →
        get_rate data exchange symbol = some ((r : ℚ) / 10000)) ∧
    (∀ opp ∈ find_arbitrage_opportunities data symbol min_spread,
        ∃ tbl1 tbl2 r1 r2,
          dictLookup data.funding_rates opp.exchange1 = some tbl1 ∧
          dictLookup tbl1 symbol = some r1 ∧ opp.rate1 = (r1 : ℚ) / 10000 ∧
          dictLookup data.funding_rates opp.exchange2 = some tbl2 ∧
          dictLookup tbl2 symbol = some r2 ∧ opp.rate2 = (r2 : ℚ) / 10000) := by
  constructor
  · intro exchange tbl r h1 h2
    simp [get_rate, h1, h2]
  · intro opp hm
    obtain ⟨p, hp, _, rfl⟩ := mem_find_iff.mp hm
    have h1 := (mem_pairsFrom hp).1
    have h2 := (mem_pairsFrom hp).2
    obtain ⟨tbl1, hl1, hs1⟩ := mem_collectRates hnd h1
    obtain ⟨tbl2, hl2, hs2⟩ := mem_collectRates hnd h2
    exact ⟨tbl1, tbl2, p.1.2, p.2.2, hl1, hs1, rfl, hl2, hs2, rfl⟩

/-- C1 witness: a concrete lookup on the worked example. -/
theorem C1_rate_normalization_witness :
    get_rate exData "ex_a" "BTC" = some ((100 : ℚ) / 10000) :=
  (C1_rate_normalization exData "BTC" 0 (by decide)).1 "ex_a" [("BTC", 100)] 100
    (by decide) (by decide)

/-- C6: get_rate answers none, rather than failing, when the exchange key is
absent or the symbol key is absent from the exchange table. -/
theorem C6_absent_is_none (data : FundingRatesData) (exchange symbol : String)
    (h : dictLookup data.funding_rates exchange = none ∨
         ∃ tbl, dictLookup data.funding_rates exchange = some tbl ∧
           dictLookup tbl symbol = none) :
    get_rate data exchange symbol = none := by
  rcases h with h | ⟨tbl, h1, h2⟩
  · simp [get_rate, h]
  · simp [get_rate, h1, h2]

/-- C6 witness: an absent exchange and an absent symbol on the worked
example. -/
theorem C6_absent_is_none_witness :
    get_rate exData "kraken" "BTC" = none ∧ get_rate exData "ex_a" "ETH" = none :=
  ⟨C6_absent_is_none exData "kraken" "BTC" (Or.inl (by decide)),
   C6_absent_is_none exData "ex_a" "ETH"
     (Or.inr ⟨[("BTC", 100)], by decide, by decide⟩)⟩

/-- C7: when fewer than two exchange tables contain the symbol,
find_arbitrage_opportunities answers the empty list for every min_spread. -/
theorem C7_fewer_than_two_empty (data : FundingRatesData) (symbol : String)
    (h : data.funding_rates.countP (fun e => (dictLookup e.2 symbol).isSome) < 2) :
    ∀ min_spread : ℚ, find_arbitrage_opportunities data symbol min_spread = [] := by
  intro min_spread
  have hl : (collectRates data.funding_rates symbol).length < 2 := by
    rw [length_collectRates]
    exact h
  simp [find_arbitrage_opportunities, hl]

/-- C7 witness: no exchange of the worked example carries ETH. -/
theorem C7_fewer_than_two_empty_witness :
    find_arbitrage_opportunities exData "ETH" (1 / 100) = [] :=
  C7_fewer_than_two_empty exData "ETH" (by decide) (1 / 100)

/-- C8: each absent top-level field of a parsed body maps to its documented
default in the constructed snapshot, and a body parsed from a successful
response is turned into exactly this snapshot. -/
theorem C8_lenient_defaults (j : JsonBody) :
    (j.symbolsOpt = none → (buildSnapshot j).symbols = []) ∧
    (j.exchangesOpt = none → (buildSnapshot j).exchanges = []) ∧
    (j.fundingRatesOpt = none → (buildSnapshot j).funding_rates = []) ∧
    (j.oiRankingsOpt = none → (buildSnapshot j).oi_rankings = []) ∧
    (j.defaultOiRankOpt = none → (buildSnapshot j).default_oi_rank = "500+") ∧
    (j.timestampOpt = none → (buildSnapshot j).timestamp = "") ∧
    get_funding_rates (HttpResult.response 200 "OK" (HttpBody.object j)) =
      FetchResult.success (buildSnapshot j) := by
  refine ⟨?_, ?_, ?_, ?_, ?_, ?_, rfl⟩ <;> intro h <;> simp [buildSnapshot, h]

/-- C8 witness: the all-absent body yields all defaults; in particular a body
missing funding_rates yields an empty mapping. -/
theorem C8_lenient_defaults_witness :
    (buildSnapshot emptyBody).funding_rates = [] ∧
    (buildSnapshot emptyBody).symbols = [] ∧
    (buildSnapshot emptyBody).exchanges = [] ∧
    (buildSnapshot emptyBody).oi_rankings = [] ∧
    (buildSnapshot emptyBody).default_oi_rank = "500+" ∧
    (buildSnapshot emptyBody).timestamp = "" :=
  ⟨(C8_lenient_defaults emptyBody).2.2.1 rfl,
   (C8_lenient_defaults emptyBody).1 rfl,
   (C8_lenient_defaults emptyBody).2.1 rfl,
   (C8_lenient_defaults emptyBody).2.2.2.1 rfl,
   (C8_lenient_defaults emptyBody).2.2.2.2.1 rfl,
   (C8_lenient_defaults emptyBody).2.2.2.2.2.1 rfl⟩

/-- The two message kinds never coincide: their fixed message heads differ
at the first character. -/
theorem transportFailure_ne_invalidResponse (a b : String) :
    transportFailure a ≠ invalidResponse b := by
  intro h
  have hh : (transportFailure a).message.data.head? =
      (invalidResponse b).message.data.head? :=
    congrArg (fun e : onlyfundingError => e.message.data.head?) h
  have e1 : (transportFailure a).message.data.head? = some (Char.ofNat 70) := rfl
  have e2 : (invalidResponse b).message.data.head? = some (Char.ofNat 73) := rfl
  rw [e1, e2] at hh
  exact absurd hh (by decide)

/-- C9 counterexample: a 300 response whose body parses as an object is not a
2xx response, yet get_funding_rates returns the snapshot successfully,
because raise_for_status only raises for statuses 400-599; and a 2xx
response whose valid JSON body is a list makes data.get raise an
AttributeError that neither except clause catches, so the failure escapes
without being wrapped in the domain error type at all. -/
theorem C9_counterexample :
    get_funding_rates (HttpResult.response 300 "Multiple Choices"
        (HttpBody.object emptyBody)) =
      FetchResult.success (buildSnapshot emptyBody) ∧
    get_funding_rates (HttpResult.response 200 "OK" (HttpBody.nonObject "list")) =
      FetchResult.uncaughtError "AttributeError: list object has no attribute get" :=
  ⟨rfl, rfl⟩

/-- C9 amended: every failure the except clauses catch surfaces as the single
error type onlyfundingError with the transport-failure kind wrapping the
cause; the only other outcomes are success and the uncaught AttributeError of
a non-object body; the malformed-response kind is never produced (under the
pinned requests, JSON parse failures are RequestExceptions and take the
transport branch); every 4xx or 5xx response (the statuses raise_for_status
raises on) produces the transport-failure kind; and a JSON parse failure on a
non-error status also produces the transport-failure kind. -/
theorem C9_error_kinds (h : HttpResult) :
    ((∃ d, get_funding_rates h = FetchResult.success d) ∨
     (∃ msg, get_funding_rates h = FetchResult.uncaughtError msg) ∨
     (∃ cause, get_funding_rates h = FetchResult.failure (transportFailure cause))) ∧
    (∀ cause, get_funding_rates h ≠ FetchResult.failure (invalidResponse cause)) ∧
    (∀ status reason body, 400 ≤ status → status < 600 →
      get_funding_rates (HttpResult.response status reason body) =
        FetchResult.failure (transportFailure (raiseForStatusMsg status reason))) ∧
    (∀ status reason cause, ¬(400 ≤ status ∧ status < 600) →
      get_funding_rates (HttpResult.response status reason (HttpBody.parseFailure cause)) =
        FetchResult.failure (transportFailure cause)) := by
  have hex : (∃ d, get_funding_rates h = FetchResult.success d) ∨
      (∃ msg, get_funding_rates h = FetchResult.uncaughtError msg) ∨
      (∃ cause, get_funding_rates h = FetchResult.failure (transportFailure cause)) := by
    match h with
    | .netError cause => exact Or.inr (Or.inr ⟨cause, rfl⟩)
    | .response status reason body =>
      by_cases hs : 400 ≤ status ∧ status < 600
      · exact Or.inr (Or.inr ⟨raiseForStatusMsg status reason,
          by simp [get_funding_rates, hs]⟩)
      · match body with
        | .parseFailure cause =>
          exact Or.inr (Or.inr ⟨cause, by simp [get_funding_rates, hs]⟩)
        | .nonObject pyType =>
          exact Or.inr (Or.inl
            ⟨"AttributeError: " ++ pyType ++ " object has no attribute get",
             by simp [get_funding_rates, hs]⟩)
        | .object j => exact Or.inl ⟨buildSnapshot j, by simp [get_funding_rates, hs]⟩
  refine ⟨hex, ?_, ?_, ?_⟩
  · intro cause hc
    rcases hex with ⟨d, hd⟩ | ⟨m, hm⟩ | ⟨c, hcc⟩
    · rw [hd] at hc
      exact FetchResult.noConfusion hc
    · rw [hm] at hc
      exact FetchResult.noConfusion hc
    · rw [hcc] at hc
      injection hc with he
      exact transportFailure_ne_invalidResponse c cause he
  · intro status reason body h4 h6
    simp [get_funding_rates, h4, h6]
  · intro status reason cause hns
    simp [get_funding_rates, hns]

/-- C9 witness: a 404 response produces the transport-failure kind, and a
parse failure on a 200 response also produces the transport-failure kind. -/
theorem C9_error_kinds_witness :
    get_funding_rates (HttpResult.response 404 "Not Found" (HttpBody.object emptyBody)) =
      FetchResult.failure (transportFailure (raiseForStatusMsg 404 "Not Found")) ∧
    get_funding_rates (HttpResult.response 200 "OK"
        (HttpBody.parseFailure "Expecting value")) =
      FetchResult.failure (transportFailure "Expecting value") :=
  ⟨(C9_error_kinds (HttpResult.response 404 "Not Found"
      (HttpBody.object emptyBody))).2.2.1
    404 "Not Found" (HttpBody.object emptyBody) (by decide) (by decide),
   (C9_error_kinds (HttpResult.response 200 "OK"
      (HttpBody.parseFailure "Expecting value"))).2.2.2
    200 "OK" "Expecting value" (by decide)⟩

/-- C2: no returned opportunity pairs an exchange with itself, and no
unordered pair of exchanges appears in the result more than once. -/
theorem C2_unordered_pairs_once (data : FundingRatesData) (symbol : String)
    (min_spread : ℚ) (hnd : (data.funding_rates.map Prod.fst).Nodup) :
    (∀ opp ∈ find_arbitrage_opportunities data symbol min_spread,
        opp.exchange1 ≠ opp.exchange2) ∧
    List.Pairwise
      (fun o o' =>
        ¬((o'.exchange1 = o.exchange1 ∧ o'.exchange2 = o.exchange2) ∨
          (o'.exchange1 = o.exchange2 ∧ o'.exchange2 = o.exchange1)))
      (find_arbitrage_opportunities data symbol min_spread) := by
  have hratesnd : ((collectRates data.funding_rates symbol).map Prod.fst).Nodup :=
    List.Nodup.sublist (collectRates_keys_sublist data.funding_rates symbol) hnd
  constructor
  · intro opp hm
    obtain ⟨p, hp, _, rfl⟩ := mem_find_iff.mp hm
    exact pairsFrom_fst_ne hratesnd p hp
  · rw [find_eq_insertionSort]
    have hsym : ∀ {a b : Opportunity},
        ¬((b.exchange1 = a.exchange1 ∧ b.exchange2 = a.exchange2) ∨
          (b.exchange1 = a.exchange2 ∧ b.exchange2 = a.exchange1)) →
        ¬((a.exchange1 = b.exchange1 ∧ a.exchange2 = b.exchange2) ∨
          (a.exchange1 = b.exchange2 ∧ a.exchange2 = b.exchange1)) := by
      intro a b hab hcon
      apply hab
      rcases hcon with ⟨x1, x2⟩ | ⟨x1, x2⟩
      · exact Or.inl ⟨x1.symm, x2.symm⟩
      · exact Or.inr ⟨x2.symm, x1.symm⟩
    rw [(List.perm_insertionSort spreadGE
      (preSortOpportunities data symbol min_spread)).pairwise_iff hsym]
    unfold preSortOpportunities
    rw [List.pairwise_map]
    exact List.Pairwise.sublist (List.filter_sublist _) (pairwise_pairsFrom hratesnd)

/-- C2 witness: both returned opportunities of the worked example pair
distinct exchanges. -/
theorem C2_unordered_pairs_once_witness :
    oppBC.exchange1 ≠ oppBC.exchange2 ∧ oppAB.exchange1 ≠ oppAB.exchange2 :=
  ⟨(C2_unordered_pairs_once exData "BTC" (1 / 100) (by decide)).1 oppBC
     (by rw [find_exData_eq]; exact List.mem_cons_self _ _),
   (C2_unordered_pairs_once exData "BTC" (1 / 100) (by decide)).1 oppAB
     (by rw [find_exData_eq]; exact List.mem_cons_of_mem _ (List.mem_cons_self _ _))⟩

/-- C3: a pair of qualifying exchanges appears in the output exactly when the
absolute difference of their raw rates divided by 10000 reaches min_spread;
the boundary case of equality is included. -/
theorem C3_spread_filter (data : FundingRatesData) (symbol : String)
    (min_spread : ℚ) (ea eb : String) (ra rb : ℤ)
    (hnd : (data.funding_rates.map Prod.fst).Nodup)
    (ha : (ea, ra) ∈ collectRates data.funding_rates symbol)
    (hb : (eb, rb) ∈ collectRates data.funding_rates symbol)
    (hne : ea ≠ eb) :
    (∃ opp ∈ find_arbitrage_opportunities data symbol min_spread,
        (opp.exchange1 = ea ∧ opp.exchange2 = eb) ∨
        (opp.exchange1 = eb ∧ opp.exchange2 = ea)) ↔
      min_spread ≤ ((|ra - rb| : ℤ) : ℚ) / 10000 := by
  have hratesnd : ((collectRates data.funding_rates symbol).map Prod.fst).Nodup :=
    List.Nodup.sublist (collectRates_keys_sublist data.funding_rates symbol) hnd
  constructor
  · rintro ⟨opp, hm, hcase⟩
    obtain ⟨p, hp, hs, rfl⟩ := mem_find_iff.mp hm
    have h1 := (mem_pairsFrom hp).1
    have h2 := (mem_pairsFrom hp).2
    rcases hcase with ⟨hea, heb⟩ | ⟨heb, hea⟩
    · have hma : ((ea, p.1.2) : String × Int) ∈
          collectRates data.funding_rates symbol := by
        rw [← hea]; exact h1
      have hmb : ((eb, p.2.2) : String × Int) ∈
          collectRates data.funding_rates symbol := by
        rw [← heb]; exact h2
      have hra := nodupKeys_mem_eq hratesnd hma ha
      have hrb := nodupKeys_mem_eq hratesnd hmb hb
      unfold spreadOf at hs
      rw [hra, hrb] at hs
      exact hs
    · have hma : ((eb, p.1.2) : String × Int) ∈
          collectRates data.funding_rates symbol := by
        rw [← heb]; exact h1
      have hmb : ((ea, p.2.2) : String × Int) ∈
          collectRates data.funding_rates symbol := by
        rw [← hea]; exact h2
      have hrb := nodupKeys_mem_eq hratesnd hma hb
      have hra := nodupKeys_mem_eq hratesnd hmb ha
      unfold spreadOf at hs
      rw [hrb, hra, abs_sub_comm] at hs
      exact hs
  · intro hs
    have hxy : ((ea, ra) : String × Int) ≠ (eb, rb) := by
      intro h
      exact hne (congrArg Prod.fst h)
    rcases pairsFrom_total ha hb hxy with hp | hp
    · refine ⟨mkOpportunity symbol ((ea, ra), (eb, rb)),
        mem_find_iff.mpr ⟨((ea, ra), (eb, rb)), hp, ?_, rfl⟩, Or.inl ⟨rfl, rfl⟩⟩
      exact hs
    · refine ⟨mkOpportunity symbol ((eb, rb), (ea, ra)),
        mem_find_iff.mpr ⟨((eb, rb), (ea, ra)), hp, ?_, rfl⟩, Or.inr ⟨rfl, rfl⟩⟩
      show min_spread ≤ ((|rb - ra| : ℤ) : ℚ) / 10000
      rw [abs_sub_comm]
      exact hs

/-- C3 witness: on the worked example the `ex_a`, `ex_b` pair clears the
threshold, so the result is nonempty. -/
theorem C3_spread_filter_witness :
    find_arbitrage_opportunities exData "BTC" (1 / 100) ≠ [] := by
  have h := (C3_spread_filter exData "BTC" (1 / 100) "ex_a" "ex_b" 100 300
    (by decide) (by decide) (by decide) (by decide)).mpr
      (by rw [show |(100 : ℤ) - 300| = 200 from by decide]; norm_num)
  obtain ⟨opp, hm, _⟩ := h
  intro hnil
  rw [hnil] at hm
  simp at hm

/-- C4: the result is sorted by spread descending, and filtering any
equal-spread class gives the same subsequence as in the enumeration-order
list, so ties retain pair-enumeration order (the sort is stable). -/
theorem C4_sorted_descending_stable (data : FundingRatesData) (symbol : String)
    (min_spread : ℚ) :
    List.Sorted spreadGE (find_arbitrage_opportunities data symbol min_spread) ∧
    ∀ s : ℚ,
      (find_arbitrage_opportunities data symbol min_spread).filter
          (fun o => decide (o.spread = s)) =
        (preSortOpportunities data symbol min_spread).filter
          (fun o => decide (o.spread = s)) := by
  rw [find_eq_insertionSort]
  exact ⟨List.sorted_insertionSort spreadGE _,
    fun s => filter_spread_insertionSort s _⟩

/-- C5: in every returned opportunity, the exchange with the strictly lower
raw rate is assigned long_exchange and the other short_exchange. -/
theorem C5_long_lower_rate (data : FundingRatesData) (symbol : String)
    (min_spread : ℚ) (hnd : (data.funding_rates.map Prod.fst).Nodup)
    (opp : Opportunity)
    (hm : opp ∈ find_arbitrage_opportunities data symbol min_spread)
    (r1 r2 : ℤ)
    (h1 : (opp.exchange1, r1) ∈ collectRates data.funding_rates symbol)
    (h2 : (opp.exchange2, r2) ∈ collectRates data.funding_rates symbol) :
    (r1 < r2 → opp.long_exchange = opp.exchange1 ∧
      opp.short_exchange = opp.exchange2) ∧
    (r2 < r1 → opp.long_exchange = opp.exchange2 ∧
      opp.short_exchange = opp.exchange1) := by
  have hratesnd : ((collectRates data.funding_rates symbol).map Prod.fst).Nodup :=
    List.Nodup.sublist (collectRates_keys_sublist data.funding_rates symbol) hnd
  obtain ⟨p, hp, _, rfl⟩ := mem_find_iff.mp hm
  have hr1 : p.1.2 = r1 := nodupKeys_mem_eq hratesnd (mem_pairsFrom hp).1 h1
  have hr2 : p.2.2 = r2 := nodupKeys_mem_eq hratesnd (mem_pairsFrom hp).2 h2
  subst hr1
  subst hr2
  constructor
  · intro hlt
    simp [mkOpportunity, hlt]
  · intro hlt
    simp [mkOpportunity, hlt.not_lt]

/-- C5 witness: on the worked example, `ex_a` has the lower raw rate and is
labelled long. -/
theorem C5_long_lower_rate_witness :
    oppAB.long_exchange = oppAB.exchange1 ∧
    oppAB.short_exchange = oppAB.exchange2 :=
  (C5_long_lower_rate exData "BTC" (1 / 100) (by decide) oppAB
      (by rw [find_exData_eq]; exact List.mem_cons_of_mem _ (List.mem_cons_self _ _))
      100 300 (by decide) (by decide)).1 (by decide)

/-- C10: each returned opportunity has distinct long and short exchanges that
are exactly the two exchanges of the pair, the raw rate of the long exchange
is at most that of the short one, and on equal raw rates the second exchange
is long and the first short. -/
theorem C10_long_short_invariants (data : FundingRatesData) (symbol : String)
    (min_spread : ℚ) (hnd : (data.funding_rates.map Prod.fst).Nodup)
    (opp : Opportunity)
    (hm : opp ∈ find_arbitrage_opportunities data symbol min_spread)
    (r1 r2 : ℤ)
    (h1 : (opp.exchange1, r1) ∈ collectRates data.funding_rates symbol)
    (h2 : (opp.exchange2, r2) ∈ collectRates data.funding_rates symbol) :
    opp.long_exchange ≠ opp.short_exchange ∧
    ((opp.long_exchange = opp.exchange1 ∧ opp.short_exchange = opp.exchange2 ∧
        r1 ≤ r2) ∨
     (opp.long_exchange = opp.exchange2 ∧ opp.short_exchange = opp.exchange1 ∧
        r2 ≤ r1)) ∧
    (r1 = r2 → opp.long_exchange = opp.exchange2 ∧
      opp.short_exchange = opp.exchange1) := by
  have hratesnd : ((collectRates data.funding_rates symbol).map Prod.fst).Nodup :=
    List.Nodup.sublist (collectRates_keys_sublist data.funding_rates symbol) hnd
  obtain ⟨p, hp, _, rfl⟩ := mem_find_iff.mp hm
  have hne := pairsFrom_fst_ne hratesnd p hp
  have hr1 : p.1.2 = r1 := nodupKeys_mem_eq hratesnd (mem_pairsFrom hp).1 h1
  have hr2 : p.2.2 = r2 := nodupKeys_mem_eq hratesnd (mem_pairsFrom hp).2 h2
  subst hr1
  subst hr2
  by_cases hlt : p.1.2 < p.2.2
  · refine ⟨by simpa [mkOpportunity, hlt] using hne,
      Or.inl ⟨by simp [mkOpportunity, hlt], by simp [mkOpportunity, hlt],
        le_of_lt hlt⟩,
      fun heq => absurd (heq ▸ hlt) (lt_irrefl _)⟩
  · refine ⟨by simpa [mkOpportunity, hlt] using hne.symm,
      Or.inr ⟨by simp [mkOpportunity, hlt], by simp [mkOpportunity, hlt],
        le_of_not_lt hlt⟩,
      fun _ => ⟨by simp [mkOpportunity, hlt], by simp [mkOpportunity, hlt]⟩⟩

/-- C10 witness: in the worked example, the pair of `ex_b` and `ex_c` has
long assigned to `ex_c` (the second, lower-rate exchange). -/
theorem C10_long_short_invariants_witness :
    oppBC.long_exchange ≠ oppBC.short_exchange ∧
    oppBC.long_exchange = oppBC.exchange2 ∧
    oppBC.short_exchange = oppBC.exchange1 := by
  have h := C10_long_short_invariants exData "BTC" (1 / 100) (by decide) oppBC
    (by rw [find_exData_eq]; exact List.mem_cons_self _ _)
    300 50 (by decide) (by decide)
  refine ⟨h.1, ?_⟩
  rcases h.2.1 with ⟨_, _, hle⟩ | ⟨ha, hb, _⟩
  · exact absurd hle (by decide)
  · exact ⟨ha, hb⟩

end OnlyFunding
